import Mathlib

/-!
Verification of the document normalization and upsert pipeline of the
BodhiLabs repository (scripts/preprocess.py, the Normalizer, and
scripts/build_vectorstore.py, the Loader).

Strings are modelled by Lean `String` (a sequence of characters, matching
Python's code-point strings); character-level operations go through
`String.data`.  Python's `KeyError` / `IndexError` faults are modelled by an
`Except PyErr` result; a missing-key dictionary access is an `Option` field
read that raises `PyErr.keyError`.
-/

/-- The single-quote character, used by `parse_quoted_list`. -/
def squote : Char := Char.ofNat 39

/-- Python faults raised by the scripts: `KeyError` for a missing dict key,
`IndexError` for list indexing out of range.  The spec's
`MalformedInputError` taxonomy entry corresponds to the `keyError` case. -/
inductive PyErr where
  | keyError (key : String)
  | indexError
deriving DecidableEq, Repr

/-- A JSON scalar as it appears in id fields: either a string or an
integer.  Mirrors the fact that e.g. a checklist `question_id` may be a
JSON number while competency/question ids are strings. -/
inductive JVal where
  | str (s : String)
  | num (n : Int)
deriving DecidableEq, Repr

/-- Python `str(x)` on a JSON scalar: a string is returned as is, an
integer is rendered in decimal. -/
def pyStr : JVal → String
  | .str s => s
  | .num n => toString n

/-- `MAX_CHARS = 2048  # 512 tokens * 4 chars/token` (preprocess.py). -/
def MAX_CHARS : Nat := 2048

/-- Core of `clean_html`: the left-to-right scan of
`re.sub(r'<[^>]+>', '', text)`.  The second argument is `none` outside a
candidate tag and `some acc` after an opening `<`, with `acc` the
characters consumed so far by `[^>]+` (which accepts every character but
`>`, so the match closes exactly at the next `>`).  A closing `>` over a
nonempty `acc` completes a match and the whole tag is dropped; `<>` is not
a match (the `+` needs at least one character) and both characters are
kept; an opening `<` with no later `>` matches nothing and the consumed
characters are kept verbatim. -/
def clean_html_scan : List Char → Option (List Char) → List Char
  | [], none => []
  | [], some acc => '<' :: acc
  | c :: rest, none =>
    if c = '<' then clean_html_scan rest (some [])
    else c :: clean_html_scan rest none
  | c :: rest, some acc =>
    if c = '>' then
      if acc = [] then '<' :: '>' :: clean_html_scan rest none
      else clean_html_scan rest none
    else clean_html_scan rest (some (acc ++ [c]))

/-- `clean_html(text)`: remove HTML tags from text (preprocess.py). -/
def clean_html (s : String) : String := ⟨clean_html_scan s.data none⟩

/-- Core of `parse_quoted_list`: the left-to-right scan of
`re.findall(r"'([^']*)'", text)`.  The second argument is `none` outside a
quoted span and `some acc` after an opening quote, with `acc` the content
consumed so far by `[^']*`; the next quote closes the span (possibly
empty) and emits its content, and an opening quote never closed emits
nothing. -/
def parse_quoted_scan : List Char → Option (List Char) → List (List Char)
  | [], _ => []
  | c :: rest, none =>
    if c = squote then parse_quoted_scan rest (some [])
    else parse_quoted_scan rest none
  | c :: rest, some acc =>
    if c = squote then acc :: parse_quoted_scan rest none
    else parse_quoted_scan rest (some (acc ++ [c]))

/-- `parse_quoted_list(text)`: parse `'item1', 'item2'` into
`['item1', 'item2']` (preprocess.py). -/
def parse_quoted_list (s : String) : List String :=
  (parse_quoted_scan s.data none).map (fun l => ⟨l⟩)

/-- `truncate_if_needed(text, max_chars=MAX_CHARS)` (preprocess.py).
Returns the (possibly truncated) text together with a flag recording
whether the truncation warning was logged. -/
def truncate_if_needed (text : String) (max_chars : Nat := MAX_CHARS) :
    String × Bool :=
  if text.length ≤ max_chars then (text, false)
  else (⟨text.data.take max_chars⟩, true)

/-! ## Data model (RawModuleExport, CanonicalRecord, ModuleBundle) -/

/-- The `key_module_field` block of the raw export.  Each required key is
modelled as an `Option`, since the claims under verification concern the
behavior when one of them is missing from the JSON object. -/
structure KeyModuleField where
  course_id : Option JVal
  competency_name : Option String
  module_domain : Option String
deriving DecidableEq, Repr

/-- One `competency` object of a `question_type_mcq` group. -/
structure Competency where
  competency_id : JVal
  competency_type : String
  module_compentency_area : String
  module_competency_definition : String
  activity_names : String
deriving DecidableEq, Repr

/-- The `question` object of a `question_type_mcq` group: five parallel
string-encoded lists (values wrapped in single quotes). -/
structure QuestionBlock where
  question_ids : String
  question_texts : String
  correct_options_texts : String
  question_id_competency_definition : String
  options_texts : String
deriving DecidableEq, Repr

/-- One group under `question_type_mcq`. -/
structure CompGroup where
  competency : Competency
  question : QuestionBlock
deriving DecidableEq, Repr

/-- One step record of a checklist (`option_sequence`, `option_text`). -/
structure ChecklistStep where
  option_sequence : Int
  option_text : String
deriving DecidableEq, Repr

/-- The `question` object of a `question_type_checklist` group. -/
structure ChecklistQuestion where
  question_id : JVal
  question_text : String
deriving DecidableEq, Repr

/-- One group under `question_type_checklist`; the source key for the
step list is `option`. -/
structure ChecklistGroup where
  question : ChecklistQuestion
  option : List ChecklistStep
deriving DecidableEq, Repr

/-- `raw_data[0]`: the raw module export read by preprocess.py.
`key_module_field` is optional (its absence is a KeyError the claims talk
about); `question_type_checklist` is optional because the source guards
its access with an `in` test. -/
structure RawModuleExport where
  key_module_field : Option KeyModuleField
  question_type_mcq : List CompGroup
  question_type_checklist : Option (List ChecklistGroup)
deriving DecidableEq, Repr

/-- A CanonicalRecord: the `{'id': ..., 'embedding_text': ..., 'metadata': ...}`
dict appended to `competencies` / `mcqs` / `checklists`.  Metadata is the
flat scalar mapping, in the key order of the source dict literal. -/
structure Record where
  id : JVal
  embedding_text : String
  metadata : List (String × JVal)
deriving DecidableEq, Repr

/-- The module identity carried in the bundle as `module_info`.  The
Normalizer has already read `course_id` and `competency_name` successfully
whenever it produces a bundle, so they are present; `module_domain` may be
absent (it is only read while rendering records). -/
structure ModuleInfo where
  course_id : JVal
  competency_name : String
  module_domain : Option String
deriving DecidableEq, Repr

/-- The ModuleBundle: `processed_data` as written by preprocess.py. -/
structure Bundle where
  module_info : ModuleInfo
  competencies : List Record
  mcqs : List Record
  checklists : List Record
  total_vectors : Nat
deriving DecidableEq, Repr

/-! ## Normalizer (preprocess.py) -/

/-- A Python dict access `d[key]`: raises `KeyError(key)` when missing. -/
def getKey {α : Type} (o : Option α) (key : String) : Except PyErr α :=
  match o with
  | some a => Except.ok a
  | none => Except.error (PyErr.keyError key)

/-- A Python list index `l[i]` for `0 ≤ i`: raises IndexError when out of
range. -/
def listIdx {α : Type} (l : List α) (i : Nat) : Except PyErr α :=
  match l.get? i with
  | some a => Except.ok a
  | none => Except.error PyErr.indexError

/-- The Python `for` loop that builds a list, aborting at the first fault
of the body (evaluation is left to right, results kept in order). -/
def mapE {α β : Type} (f : α → Except PyErr β) : List α → Except PyErr (List β)
  | [] => Except.ok []
  | a :: as =>
    match f a with
    | Except.error e => Except.error e
    | Except.ok b =>
      match mapE f as with
      | Except.error e => Except.error e
      | Except.ok bs => Except.ok (b :: bs)

/-- `json.dumps` on a list of strings (escape sequences inside the strings
are not modelled; no claim depends on them). -/
def json_dumps_str_list (l : List String) : String :=
  "[" ++ String.intercalate ", " (l.map (fun s => "\"" ++ s ++ "\"")) ++ "]"

/-- `json.dumps` on the checklist `steps_metadata` list of
step_number/step_text dicts (escape sequences not modelled). -/
def json_dumps_steps (steps : List ChecklistStep) : String :=
  "[" ++ String.intercalate ", "
    (steps.map (fun st =>
      "\x7b\"step_number\": " ++ toString st.option_sequence ++
      ", \"step_text\": \"" ++ st.option_text ++ "\"\x7d")) ++ "]"

/-- Python `.replace` of the single quote by the empty string, applied to
`activity_names`. -/
def strip_quotes (s : String) : String :=
  ⟨s.data.filter (fun c => !(c = squote : Bool))⟩

/-- The `This competency assesses:` block: newline-join of `- {obj}` over
the first ten learning objectives (`learning_objectives[:10]`). -/
def competency_objectives_block (learning_objectives : List String) : String :=
  String.intercalate "\n" ((learning_objectives.take 10).map (fun obj => "- " ++ obj))

/-- The competency embedding text before truncation: the f-string of
preprocess.py lines 68-76, continuation lines carrying their literal
20-space indent. -/
def competency_embed_text_full (comp : Competency)
    (learning_objectives : List String) : String :=
  "Competency: " ++ comp.module_compentency_area ++
  "\n                    Type: " ++ comp.competency_type ++
  "\n\n                    Definition: " ++ clean_html comp.module_competency_definition ++
  "\n\n                    This competency assesses:\n                    " ++
  competency_objectives_block learning_objectives ++
  "\n\n                    Activities: " ++ strip_quotes comp.activity_names

/-- One iteration of the competency loop (preprocess.py lines 59-99).
The only fault the body can raise is the `module_fields['module_domain']`
access in the metadata literal. -/
def mkCompetencyRecord (mf : KeyModuleField) (course_id : JVal)
    (module_name : String) (g : CompGroup) : Except PyErr Record := do
  let question_ids := parse_quoted_list g.question.question_ids
  let learning_objectives := parse_quoted_list g.question.question_id_competency_definition
  let embed := (truncate_if_needed (competency_embed_text_full g.competency learning_objectives)).1
  let domain ← getKey mf.module_domain "module_domain"
  Except.ok
    { id := g.competency.competency_id
      embedding_text := embed
      metadata :=
        [("doc_type", JVal.str "competency"),
         ("competency_id", g.competency.competency_id),
         ("competency_type", JVal.str g.competency.competency_type),
         ("module_compentency_area", JVal.str g.competency.module_compentency_area),
         ("module_competency_definition", JVal.str (clean_html g.competency.module_competency_definition)),
         ("activity_names", JVal.str (strip_quotes g.competency.activity_names)),
         ("question_ids", JVal.str (json_dumps_str_list question_ids)),
         ("question_count", JVal.num question_ids.length),
         ("course_id", course_id),
         ("competency_name", JVal.str module_name),
         ("module_domain", JVal.str domain)] }

/-- The MCQ embedding text before truncation: the f-string of
preprocess.py lines 122-126, continuation lines carrying their literal
24-space indent. -/
def mcq_embed_text (qt co lo ao : String) (comp : Competency) : String :=
  "Question: " ++ qt ++
  "\n                        Correct Answer: " ++ co ++
  "\n                        Learning Objective: " ++ lo ++
  "\n                        All Options: " ++ ao ++
  "\n                        Competency: " ++ comp.module_compentency_area ++
  " (" ++ comp.competency_type ++ ")"

/-- The body of `for i, qid in enumerate(question_ids)` (preprocess.py
lines 121-149): index the four other parsed lists at `i` (IndexError when
one is too short; the f-string evaluates its four subscripts left to
right), truncate the rendered text, and read
`module_fields['module_domain']` in the metadata literal. -/
def mkMcqRecord (mf : KeyModuleField) (course_id : JVal) (module_name : String)
    (comp : Competency)
    (question_texts correct_options learning_objectives all_options : List String)
    (p : Nat × String) : Except PyErr Record := do
  let qt ← listIdx question_texts p.1
  let co ← listIdx correct_options p.1
  let lo ← listIdx learning_objectives p.1
  let ao ← listIdx all_options p.1
  let embed := (truncate_if_needed (mcq_embed_text qt co lo ao comp)).1
  let domain ← getKey mf.module_domain "module_domain"
  Except.ok
    { id := JVal.str p.2
      embedding_text := embed
      metadata :=
        [("doc_type", JVal.str "mcq"),
         ("question_id", JVal.str p.2),
         ("question_text", JVal.str qt),
         ("options_text", JVal.str ao),
         ("correct_option_text", JVal.str co),
         ("question_id_competency_definition", JVal.str lo),
         ("competency_id", comp.competency_id),
         ("competency_type", JVal.str comp.competency_type),
         ("module_compentency_area", JVal.str comp.module_compentency_area),
         ("course_id", course_id),
         ("competency_name", JVal.str module_name),
         ("module_domain", JVal.str domain)] }

/-- One group of the MCQ loop (preprocess.py lines 109-149): parse the
five quoted lists, then run the per-question body over
`enumerate(question_ids)`. -/
def mkMcqRecords (mf : KeyModuleField) (course_id : JVal)
    (module_name : String) (g : CompGroup) : Except PyErr (List Record) :=
  let question_ids := parse_quoted_list g.question.question_ids
  let question_texts := parse_quoted_list g.question.question_texts
  let correct_options := parse_quoted_list g.question.correct_options_texts
  let learning_objectives := parse_quoted_list g.question.question_id_competency_definition
  let all_options := parse_quoted_list g.question.options_texts
  mapE (mkMcqRecord mf course_id module_name g.competency
      question_texts correct_options learning_objectives all_options)
    question_ids.enum

/-- `steps_text`: newline-join of `{option_sequence}. {option_text}` in
list order. -/
def checklist_steps_text (steps : List ChecklistStep) : String :=
  String.intercalate "\n"
    (steps.map (fun st => toString st.option_sequence ++ ". " ++ st.option_text))

/-- The full checklist template (preprocess.py lines 171-174,
24-space continuation indent). -/
def checklist_full_text (q : ChecklistQuestion) (steps : List ChecklistStep) : String :=
  "Procedural Checklist: " ++ q.question_text ++
  "\n                        Competency: Procedural Skills (Skill)" ++
  "\n                        Correct sequence (" ++ toString steps.length ++
  " steps):\n                        " ++ checklist_steps_text steps

/-- The compressed fallback template (preprocess.py lines 179-181,
28-space continuation indent): question text plus bare step listing. -/
def checklist_short_text (q : ChecklistQuestion) (steps : List ChecklistStep) : String :=
  "Procedural Checklist: " ++ q.question_text ++
  "\n                            Steps:\n                            " ++
  checklist_steps_text steps

/-- The stored checklist embedding text: full template, replaced by the
fallback when it exceeds `MAX_CHARS`, then `truncate_if_needed`. -/
def checklist_embed_text (q : ChecklistQuestion) (steps : List ChecklistStep) : String :=
  let full := checklist_full_text q steps
  (truncate_if_needed (if full.length > MAX_CHARS then checklist_short_text q steps else full)).1

/-- One iteration of the checklist loop (preprocess.py lines 160-207).
The record id is the raw `question['question_id']` value, while the
metadata stores `str(question['question_id'])`. -/
def mkChecklistRecord (mf : KeyModuleField) (course_id : JVal)
    (module_name : String) (g : ChecklistGroup) : Except PyErr Record := do
  let domain ← getKey mf.module_domain "module_domain"
  Except.ok
    { id := g.question.question_id
      embedding_text := checklist_embed_text g.question g.option
      metadata :=
        [("doc_type", JVal.str "checklist"),
         ("question_id", JVal.str (pyStr g.question.question_id)),
         ("question_text", JVal.str g.question.question_text),
         ("total_steps", JVal.num g.option.length),
         ("steps", JVal.str (json_dumps_steps g.option)),
         ("competency_type", JVal.str "Skill"),
         ("course_id", course_id),
         ("competency_name", JVal.str module_name),
         ("module_domain", JVal.str domain)] }

/-- The Normalizer: preprocess.py end to end.  Reads the module identity
(KeyError aborts before anything is produced), renders the three record
sequences in source order, and assembles `processed_data`; the output file
is written only after every record rendered, so an error value means no
output was written. -/
def preprocess (raw : RawModuleExport) : Except PyErr Bundle := do
  let mf ← getKey raw.key_module_field "key_module_field"
  let course_id ← getKey mf.course_id "course_id"
  let module_name ← getKey mf.competency_name "competency_name"
  let competencies ← mapE (mkCompetencyRecord mf course_id module_name) raw.question_type_mcq
  let mcqGroups ← mapE (mkMcqRecords mf course_id module_name) raw.question_type_mcq
  let mcqs := mcqGroups.flatten
  let checklists ← mapE (mkChecklistRecord mf course_id module_name)
    (raw.question_type_checklist.getD [])
  Except.ok
    { module_info :=
        { course_id := course_id, competency_name := module_name,
          module_domain := mf.module_domain }
      competencies := competencies
      mcqs := mcqs
      checklists := checklists
      total_vectors := competencies.length + mcqs.length + checklists.length }

/-! ## Loader (build_vectorstore.py) -/

/-- A langchain `Document`: page content plus metadata. -/
structure Document where
  page_content : String
  metadata : List (String × JVal)
deriving DecidableEq, Repr

/-- Wrap one record as a `Document`. -/
def mkDoc (r : Record) : Document :=
  { page_content := r.embedding_text, metadata := r.metadata }

/-- Python `str.lower` restricted to the ASCII range (the module names in
scope are ASCII). -/
def py_lower (s : String) : String := ⟨s.data.map Char.toLower⟩

/-- Python `.replace` of each space by an underscore. -/
def py_space_to_under (s : String) : String :=
  ⟨s.data.map (fun c => if c = ' ' then '_' else c)⟩

/-- `load_module_documents` (build_vectorstore.py lines 35-79): derive the
collection name, then walk competencies, mcqs, checklists in that order,
appending one `Document` and one `str(id)` per record.  Returns
`(documents, ids, collection_name)`. -/
def load_module_documents (data : Bundle) :
    List Document × List String × String :=
  let collection_name :=
    "module_" ++ pyStr data.module_info.course_id ++ "_" ++
      py_space_to_under (py_lower data.module_info.competency_name)
  let documents :=
    data.competencies.map mkDoc ++ data.mcqs.map mkDoc ++ data.checklists.map mkDoc
  let ids :=
    data.competencies.map (fun r => pyStr r.id) ++
    data.mcqs.map (fun r => pyStr r.id) ++
    data.checklists.map (fun r => pyStr r.id)
  (documents, ids, collection_name)

/-- The persistent collection, modelled at the collaborator interface: a
keyed association list from id to stored content.  The stored vector is
the embedding of the page content, a deterministic function of it, so the
stored content is represented by the `Document` itself. -/
abbrev VectorStore := List (String × Document)

/-- The collaborator upsert contract for one id: when the id exists its
entry is fully replaced in place, otherwise a new entry is appended. -/
def upsertOne : VectorStore → String → Document → VectorStore
  | [], k, v => [(k, v)]
  | p :: rest, k, v =>
    if p.1 = k then (k, v) :: rest else p :: upsertOne rest k v

/-- `vectorstore.add_documents(documents=documents, ids=ids)`: keyed
upsert of each (id, document) pair in submission order. -/
def add_documents (s : VectorStore) (documents : List Document)
    (ids : List String) : VectorStore :=
  (ids.zip documents).foldl (fun st p => upsertOne st p.1 p.2) s

/-- `c.count()`: number of entries of the collection. -/
def storeCount (s : VectorStore) : Nat := s.length

/-- Retrieve the stored content for an id, when present. -/
def storeGet (s : VectorStore) (k : String) : Option Document :=
  (s.find? (fun p => p.1 == k)).map (fun p => p.2)

/-- One Loader run on a bundle: load the documents and ids and upsert them
into the collection. -/
def run_loader (s : VectorStore) (b : Bundle) : VectorStore :=
  let loaded := load_module_documents b
  add_documents s loaded.1 loaded.2.1

/-! ## Store lemmas -/

/-- Whether the collection holds an entry for an id. -/
def containsKey (s : VectorStore) (k : String) : Bool :=
  s.any (fun p => p.1 == k)

theorem containsKey_upsertOne (s : VectorStore) (k : String) (v : Document)
    (k' : String) :
    containsKey (upsertOne s k v) k' = (k' == k || containsKey s k') := by
  induction s with
  | nil => simp [upsertOne, containsKey, BEq.comm]
  | cons p rest ih =>
    by_cases hp : p.1 = k
    · simp [upsertOne, hp, containsKey, BEq.comm]
    · simp only [upsertOne, if_neg hp, containsKey, List.any_cons] at *
      rw [ih]
      cases hpk : (p.1 == k') <;> simp [hpk, Bool.or_comm, Bool.or_assoc, Bool.or_left_comm]

theorem length_upsertOne (s : VectorStore) (k : String) (v : Document) :
    (upsertOne s k v).length =
      if containsKey s k then s.length else s.length + 1 := by
  induction s with
  | nil => simp [upsertOne, containsKey]
  | cons p rest ih =>
    by_cases hp : p.1 = k
    · simp [upsertOne, hp, containsKey]
    · have hpb : (p.1 == k) = false := by simp [hp]
      simp only [upsertOne, if_neg hp, containsKey, List.any_cons, hpb,
        Bool.false_or, List.length_cons]
      rw [show containsKey rest k = rest.any (fun p => p.1 == k) from rfl] at ih
      rw [ih]
      by_cases hr : rest.any (fun p => p.1 == k) <;> simp [hr]

theorem storeGet_upsertOne (s : VectorStore) (k : String) (v : Document)
    (k' : String) :
    storeGet (upsertOne s k v) k' =
      if k' == k then some v else storeGet s k' := by
  induction s with
  | nil =>
    simp only [upsertOne, storeGet, List.find?]
    cases h : (k == k') <;> cases h' : (k' == k) <;>
      simp_all [BEq.comm]
  | cons p rest ih =>
    by_cases hp : p.1 = k
    · subst hp
      simp only [upsertOne, if_pos rfl, storeGet, List.find?]
      cases h : (p.1 == k') <;> cases h' : (k' == p.1) <;>
        simp_all [BEq.comm, storeGet]
    · have hpb : (p.1 == k) = false := by simp [hp]
      simp only [upsertOne, if_neg hp, storeGet, List.find?]
      cases hpk : (p.1 == k') with
      | true =>
        have : ¬ (k' == k) = true := by
          intro hk
          exact hp (by
            have h1 : p.1 = k' := by exact eq_of_beq hpk
            have h2 : k' = k := by exact eq_of_beq hk
            rw [h1, h2])
        simp [Bool.not_eq_true] at this
        simp [this]
      | false =>
        simpa [storeGet, hpk] using ih

/-- The last value submitted for an id within one batch of upsert pairs
(the value that wins under sequential keyed upsert). -/
def lastWrite : List (String × Document) → String → Option Document
  | [], _ => none
  | p :: ps, k =>
    match lastWrite ps k with
    | some v => some v
    | none => if p.1 == k then some p.2 else none

theorem storeGet_foldl_upsert (ps : List (String × Document)) :
    ∀ (s : VectorStore) (k : String),
      storeGet (ps.foldl (fun st p => upsertOne st p.1 p.2) s) k =
        match lastWrite ps k with
        | some v => some v
        | none => storeGet s k := by
  induction ps with
  | nil => intro s k; simp [lastWrite]
  | cons p ps ih =>
    intro s k
    simp only [List.foldl_cons, lastWrite]
    rw [ih]
    cases hl : lastWrite ps k with
    | some v => simp
    | none =>
      simp only []
      rw [storeGet_upsertOne]
      cases hk : (k == p.1) with
      | true =>
        have : (p.1 == k) = true := by rw [BEq.comm]; exact hk
        simp [this]
      | false =>
        have : (p.1 == k) = false := by rw [BEq.comm]; exact hk
        simp [this]

theorem containsKey_foldl_upsert (ps : List (String × Document)) :
    ∀ (s : VectorStore) (k : String),
      containsKey (ps.foldl (fun st p => upsertOne st p.1 p.2) s) k =
        (containsKey s k || ps.any (fun p => p.1 == k)) := by
  induction ps with
  | nil => intro s k; simp
  | cons p ps ih =>
    intro s k
    simp only [List.foldl_cons, List.any_cons]
    rw [ih, containsKey_upsertOne]
    rw [BEq.comm]
    cases h1 : (p.1 == k) <;> cases h2 : containsKey s k <;> simp

theorem length_foldl_upsert_of_contained (ps : List (String × Document)) :
    ∀ (s : VectorStore), (∀ p ∈ ps, containsKey s p.1 = true) →
      (ps.foldl (fun st p => upsertOne st p.1 p.2) s).length = s.length := by
  induction ps with
  | nil => intro s _; rfl
  | cons p ps ih =>
    intro s hall
    simp only [List.foldl_cons]
    rw [ih (upsertOne s p.1 p.2) ?_]
    · rw [length_upsertOne, if_pos (hall p (by simp))]
    · intro q hq
      rw [containsKey_upsertOne]
      rw [hall q (by simp [hq])]
      simp

theorem foldl_upsert_count_stable (ps : List (String × Document)) (s : VectorStore) :
    (ps.foldl (fun st p => upsertOne st p.1 p.2)
        (ps.foldl (fun st p => upsertOne st p.1 p.2) s)).length =
      (ps.foldl (fun st p => upsertOne st p.1 p.2) s).length := by
  apply length_foldl_upsert_of_contained
  intro p hp
  rw [containsKey_foldl_upsert]
  have : ps.any (fun q => q.1 == p.1) = true := by
    rw [List.any_eq_true]
    exact ⟨p, hp, by simp⟩
  simp [this]

theorem foldl_upsert_get_stable (ps : List (String × Document)) (s : VectorStore)
    (k : String) :
    storeGet (ps.foldl (fun st p => upsertOne st p.1 p.2)
        (ps.foldl (fun st p => upsertOne st p.1 p.2) s)) k =
      storeGet (ps.foldl (fun st p => upsertOne st p.1 p.2) s) k := by
  rw [storeGet_foldl_upsert, storeGet_foldl_upsert]
  cases hl : lastWrite ps k with
  | some v => simp [storeGet_foldl_upsert, hl]
  | none => simp [storeGet_foldl_upsert, hl]

/-- C1: running the Loader a second time on an identical ModuleBundle
yields a collection whose post-count equals its pre-count and whose stored
(embedding text, metadata) content for each id is unchanged, under the
collaborator contract that upsert keyed by id fully replaces an existing
entry and otherwise creates a new one (`upsertOne`). -/
theorem loader_second_run_preserves_count_and_content
    (s : VectorStore) (b : Bundle) :
    storeCount (run_loader (run_loader s b) b) = storeCount (run_loader s b) ∧
    ∀ k, storeGet (run_loader (run_loader s b) b) k =
      storeGet (run_loader s b) k := by
  constructor
  · exact foldl_upsert_count_stable _ s
  · intro k
    exact foldl_upsert_get_stable _ s k

/-! ## Normalizer lemmas -/

theorem mapE_ok_length {α β : Type} {f : α → Except PyErr β} :
    ∀ {l : List α} {ys : List β}, mapE f l = Except.ok ys →
      ys.length = l.length := by
  intro l
  induction l with
  | nil =>
    intro ys h
    simp only [mapE, Except.ok.injEq] at h
    simp [← h]
  | cons a as ih =>
    intro ys h
    simp only [mapE] at h
    cases hf : f a with
    | error e => rw [hf] at h; exact absurd h (by simp)
    | ok b =>
      rw [hf] at h
      cases hm : mapE f as with
      | error e => rw [hm] at h; exact absurd h (by simp)
      | ok bs =>
        rw [hm] at h
        simp only [Except.ok.injEq] at h
        rw [← h]
        simp [ih hm]

theorem mapE_ok_mem {α β : Type} {f : α → Except PyErr β} :
    ∀ {l : List α} {ys : List β}, mapE f l = Except.ok ys →
      ∀ y ∈ ys, ∃ a ∈ l, f a = Except.ok y := by
  intro l
  induction l with
  | nil =>
    intro ys h y hy
    simp only [mapE, Except.ok.injEq] at h
    rw [← h] at hy
    exact absurd hy (by simp)
  | cons a as ih =>
    intro ys h y hy
    simp only [mapE] at h
    cases hf : f a with
    | error e => rw [hf] at h; exact absurd h (by simp)
    | ok b =>
      rw [hf] at h
      cases hm : mapE f as with
      | error e => rw [hm] at h; exact absurd h (by simp)
      | ok bs =>
        rw [hm] at h
        simp only [Except.ok.injEq] at h
        rw [← h] at hy
        rcases List.mem_cons.mp hy with hyb | hybs
        · exact ⟨a, by simp, by rw [hf, hyb]⟩
        · rcases ih hm y hybs with ⟨a', ha', hfa'⟩
          exact ⟨a', by simp [ha'], hfa'⟩

theorem preprocess_ok_inv {raw : RawModuleExport} {b : Bundle}
    (h : preprocess raw = Except.ok b) :
    ∃ mf course_id module_name comps mcqGroups checklists,
      raw.key_module_field = some mf ∧
      mf.course_id = some course_id ∧
      mf.competency_name = some module_name ∧
      mapE (mkCompetencyRecord mf course_id module_name)
        raw.question_type_mcq = Except.ok comps ∧
      mapE (mkMcqRecords mf course_id module_name)
        raw.question_type_mcq = Except.ok mcqGroups ∧
      mapE (mkChecklistRecord mf course_id module_name)
        (raw.question_type_checklist.getD []) = Except.ok checklists ∧
      b = { module_info :=
              { course_id := course_id, competency_name := module_name,
                module_domain := mf.module_domain }
            competencies := comps
            mcqs := mcqGroups.flatten
            checklists := checklists
            total_vectors :=
              comps.length + mcqGroups.flatten.length + checklists.length } := by
  unfold preprocess at h
  cases hmf : raw.key_module_field with
  | none => rw [hmf] at h; simp [getKey, Bind.bind, Except.bind] at h
  | some mf =>
  rw [hmf] at h
  simp only [getKey, Bind.bind, Except.bind] at h
  cases hcid : mf.course_id with
  | none => rw [hcid] at h; simp at h
  | some course_id =>
  rw [hcid] at h
  simp only [Except.bind] at h
  cases hmn : mf.competency_name with
  | none => rw [hmn] at h; simp at h
  | some module_name =>
  rw [hmn] at h
  simp only [Except.bind] at h
  cases hcomp : mapE (mkCompetencyRecord mf course_id module_name)
      raw.question_type_mcq with
  | error e => rw [hcomp] at h; exact absurd h (by simp)
  | ok comps =>
  rw [hcomp] at h
  cases hmcq : mapE (mkMcqRecords mf course_id module_name)
      raw.question_type_mcq with
  | error e => rw [hmcq] at h; exact absurd h (by simp)
  | ok mcqGroups =>
  rw [hmcq] at h
  cases hchk : mapE (mkChecklistRecord mf course_id module_name)
      (raw.question_type_checklist.getD []) with
  | error e => rw [hchk] at h; exact absurd h (by simp)
  | ok checklists =>
  rw [hchk] at h
  simp only [Except.ok.injEq] at h
  exact ⟨mf, course_id, module_name, comps, mcqGroups, checklists,
    rfl, hcid, hmn, hcomp, hmcq, hchk, h.symm⟩

instance : Inhabited Record := ⟨⟨JVal.str "", "", []⟩⟩

/-- Sample competency for concrete checks: the definition carries markup,
the activity names carry quotes. -/
def sampleComp : Competency :=
  { competency_id := JVal.str "comp1"
    competency_type := "Knowledge"
    module_compentency_area := "Catheter Care"
    module_competency_definition := "<b>balloon</b> inflation"
    activity_names := "'Act One', 'Act Two'" }

/-- Sample MCQ group with three questions and equal-length parallel
lists. -/
def sampleGroup : CompGroup :=
  { competency := sampleComp
    question :=
      { question_ids := "'q1', 'q2', 'q3'"
        question_texts := "'t1', 't2', 't3'"
        correct_options_texts := "'c1', 'c2', 'c3'"
        question_id_competency_definition := "'l1', 'l2', 'l3'"
        options_texts := "'o1', 'o2', 'o3'" } }

/-- Sample checklist group with a numeric question id and four steps. -/
def sampleChecklist : ChecklistGroup :=
  { question := { question_id := JVal.num 77, question_text := "Insert catheter" }
    option := [⟨1, "step a"⟩, ⟨2, "step b"⟩, ⟨3, "step c"⟩, ⟨4, "step d"⟩] }

/-- The end-to-end sample raw export: one competency group containing
three questions and one checklist. -/
def sampleRaw : RawModuleExport :=
  { key_module_field := some
      { course_id := some (JVal.str "341")
        competency_name := some "Urinary Catheterization"
        module_domain := some "Nursing" }
    question_type_mcq := [sampleGroup]
    question_type_checklist := some [sampleChecklist] }

/-- The bundle the Normalizer produces from `sampleRaw`. -/
def sampleBundle : Bundle :=
  match preprocess sampleRaw with
  | Except.ok b => b
  | Except.error _ =>
    { module_info := ⟨JVal.str "", "", none⟩, competencies := [],
      mcqs := [], checklists := [], total_vectors := 0 }

/-- A 3000-character text, above the 2048-character budget. -/
def long_sample_text : String := ⟨List.replicate 3000 'x'⟩

theorem mkCompetencyRecord_ok_embed {mf : KeyModuleField} {cid : JVal}
    {mn : String} {g : CompGroup} {r : Record}
    (h : mkCompetencyRecord mf cid mn g = Except.ok r) :
    r.embedding_text = (truncate_if_needed (competency_embed_text_full
      g.competency
      (parse_quoted_list g.question.question_id_competency_definition))).1 := by
  unfold mkCompetencyRecord at h
  cases hd : mf.module_domain with
  | none => rw [hd] at h; simp [getKey, Bind.bind, Except.bind] at h
  | some d =>
    rw [hd] at h
    simp only [getKey, Bind.bind, Except.bind, Except.ok.injEq] at h
    rw [← h]

theorem mkMcqRecord_ok_embed {mf : KeyModuleField} {cid : JVal} {mn : String}
    {comp : Competency} {qts cos los aos : List String} {p : Nat × String}
    {r : Record}
    (h : mkMcqRecord mf cid mn comp qts cos los aos p = Except.ok r) :
    ∃ qt co lo ao, r.embedding_text =
      (truncate_if_needed (mcq_embed_text qt co lo ao comp)).1 := by
  unfold mkMcqRecord at h
  cases h1 : listIdx qts p.1 with
  | error e => rw [h1] at h; simp [Bind.bind, Except.bind] at h
  | ok qt =>
  rw [h1] at h; simp only [Bind.bind, Except.bind] at h
  cases h2 : listIdx cos p.1 with
  | error e => rw [h2] at h; simp [Except.bind] at h
  | ok co =>
  rw [h2] at h; simp only [Except.bind] at h
  cases h3 : listIdx los p.1 with
  | error e => rw [h3] at h; simp [Except.bind] at h
  | ok lo =>
  rw [h3] at h; simp only [Except.bind] at h
  cases h4 : listIdx aos p.1 with
  | error e => rw [h4] at h; simp [Except.bind] at h
  | ok ao =>
  rw [h4] at h; simp only [Except.bind] at h
  cases hd : mf.module_domain with
  | none => rw [hd] at h; simp [getKey] at h
  | some d =>
    rw [hd] at h
    simp only [getKey, Except.ok.injEq] at h
    exact ⟨qt, co, lo, ao, by rw [← h]⟩

theorem mkChecklistRecord_ok_embed {mf : KeyModuleField} {cid : JVal}
    {mn : String} {g : ChecklistGroup} {r : Record}
    (h : mkChecklistRecord mf cid mn g = Except.ok r) :
    r.embedding_text = checklist_embed_text g.question g.option := by
  unfold mkChecklistRecord at h
  cases hd : mf.module_domain with
  | none => rw [hd] at h; simp [getKey, Bind.bind, Except.bind] at h
  | some d =>
    rw [hd] at h
    simp only [getKey, Bind.bind, Except.bind, Except.ok.injEq] at h
    rw [← h]

/-- C3: every record's stored embedding text passes through
`truncate_if_needed`; a text longer than 2048 characters is hard-cut to
exactly its first 2048 characters with the warning flag set, and a text of
at most 2048 characters is returned unchanged with no warning. -/
theorem embedding_text_truncation_policy (t : String) :
    (t.length ≤ 2048 → truncate_if_needed t = (t, false)) ∧
    (2048 < t.length →
      truncate_if_needed t = (⟨t.data.take 2048⟩, true) ∧
      (truncate_if_needed t).1.length = 2048) ∧
    (∀ raw b r, preprocess raw = Except.ok b →
      r ∈ b.competencies ++ b.mcqs ++ b.checklists →
      ∃ rendered, r.embedding_text = (truncate_if_needed rendered).1) := by
  refine ⟨?_, ?_, ?_⟩
  · intro h
    have h' : t.length ≤ MAX_CHARS := h
    simp [truncate_if_needed, h']
  · intro h
    have hn : ¬ t.length ≤ MAX_CHARS := by
      show ¬ t.length ≤ 2048
      omega
    have he : truncate_if_needed t = (⟨t.data.take 2048⟩, true) := by
      show (if t.length ≤ MAX_CHARS then (t, false)
        else ((⟨t.data.take MAX_CHARS⟩ : String), true)) = _
      rw [if_neg hn]
      rfl
    refine ⟨he, ?_⟩
    rw [he]
    show (t.data.take 2048).length = 2048
    rw [List.length_take]
    have : 2048 < t.data.length := h
    omega
  · intro raw b r hok hmem
    obtain ⟨mf, cid, mn, comps, mcqGroups, chks, hmf, hcid, hmn,
      hcomp, hmcq, hchk, hb⟩ := preprocess_ok_inv hok
    subst hb
    simp only [List.mem_append] at hmem
    rcases hmem with (hr | hr) | hr
    · obtain ⟨g, hg, hrec⟩ := mapE_ok_mem hcomp r hr
      exact ⟨_, mkCompetencyRecord_ok_embed hrec⟩
    · obtain ⟨l, hl, hrl⟩ := List.mem_flatten.mp hr
      obtain ⟨g, hg, hgrp⟩ := mapE_ok_mem hmcq l hl
      unfold mkMcqRecords at hgrp
      obtain ⟨p, hp, hbody⟩ := mapE_ok_mem hgrp r hrl
      obtain ⟨qt, co, lo, ao, heq⟩ := mkMcqRecord_ok_embed hbody
      exact ⟨_, heq⟩
    · obtain ⟨g, hg, hrec⟩ := mapE_ok_mem hchk r hr
      exact ⟨_, mkChecklistRecord_ok_embed hrec⟩

set_option maxRecDepth 4000 in
/-- Witness for the truncation policy at concrete inputs: a 3-character
text is unchanged, a 3000-character text is cut to 2048, and a record of
the sample bundle carries a truncation-processed text. -/
theorem embedding_text_truncation_policy_witness :
    ((String.length "abc" ≤ 2048) ∧ truncate_if_needed "abc" = ("abc", false)) ∧
    (2048 < long_sample_text.length ∧
      truncate_if_needed long_sample_text =
        (⟨long_sample_text.data.take 2048⟩, true)) ∧
    (preprocess sampleRaw = Except.ok sampleBundle ∧
      sampleBundle.mcqs.headI ∈
        sampleBundle.competencies ++ sampleBundle.mcqs ++ sampleBundle.checklists ∧
      ∃ rendered, sampleBundle.mcqs.headI.embedding_text =
        (truncate_if_needed rendered).1) := by
  have hlen : long_sample_text.length = 3000 := by
    show (List.replicate 3000 'x').length = 3000
    rw [List.length_replicate]
  have hlong : 2048 < long_sample_text.length := by omega
  have hok : preprocess sampleRaw = Except.ok sampleBundle := by rfl
  have hmem : sampleBundle.mcqs.headI ∈
      sampleBundle.competencies ++ sampleBundle.mcqs ++ sampleBundle.checklists := by
    decide
  exact ⟨⟨by decide, (embedding_text_truncation_policy "abc").1 (by decide)⟩,
    ⟨hlong, ((embedding_text_truncation_policy long_sample_text).2.1 hlong).1⟩,
    ⟨hok, hmem, (embedding_text_truncation_policy "").2.2 sampleRaw sampleBundle
      sampleBundle.mcqs.headI hok hmem⟩⟩

theorem mapE_mcq_flatten_length {mf : KeyModuleField} {cid : JVal} {mn : String} :
    ∀ {gs : List CompGroup} {ls : List (List Record)},
      mapE (mkMcqRecords mf cid mn) gs = Except.ok ls →
      ls.flatten.length =
        (gs.map (fun g => (parse_quoted_list g.question.question_ids).length)).sum := by
  intro gs
  induction gs with
  | nil =>
    intro ls h
    simp only [mapE, Except.ok.injEq] at h
    simp [← h]
  | cons g gs ih =>
    intro ls h
    simp only [mapE] at h
    cases hf : mkMcqRecords mf cid mn g with
    | error e => rw [hf] at h; exact absurd h (by simp)
    | ok rs =>
      rw [hf] at h
      cases hm : mapE (mkMcqRecords mf cid mn) gs with
      | error e => rw [hm] at h; exact absurd h (by simp)
      | ok lss =>
        rw [hm] at h
        simp only [Except.ok.injEq] at h
        rw [← h]
        have hrs : rs.length = (parse_quoted_list g.question.question_ids).length := by
          have hlen := mapE_ok_length (show mapE _ _ = Except.ok rs from hf)
          simpa [List.enum_length] using hlen
        simp [List.flatten_cons, hrs, ih hm]

/-- C2: when the Normalizer succeeds, the bundle holds one competency
record per competency group, one question record per parsed question id
(summed across groups), one checklist record per checklist group, and its
`total_vectors` field is the sum of the three counts. -/
theorem preprocess_record_counts (raw : RawModuleExport) (b : Bundle)
    (h : preprocess raw = Except.ok b) :
    b.competencies.length = raw.question_type_mcq.length ∧
    b.mcqs.length = (raw.question_type_mcq.map
      (fun g => (parse_quoted_list g.question.question_ids).length)).sum ∧
    b.checklists.length = (raw.question_type_checklist.getD []).length ∧
    b.total_vectors = raw.question_type_mcq.length +
      (raw.question_type_mcq.map
        (fun g => (parse_quoted_list g.question.question_ids).length)).sum +
      (raw.question_type_checklist.getD []).length := by
  obtain ⟨mf, cid, mn, comps, mcqGroups, chks, hmf, hcid, hmn,
    hcomp, hmcq, hchk, hb⟩ := preprocess_ok_inv h
  subst hb
  have h1 : comps.length = raw.question_type_mcq.length := mapE_ok_length hcomp
  have h2 : mcqGroups.flatten.length = (raw.question_type_mcq.map
      (fun g => (parse_quoted_list g.question.question_ids).length)).sum :=
    mapE_mcq_flatten_length hmcq
  have h3 : chks.length = (raw.question_type_checklist.getD []).length :=
    mapE_ok_length hchk
  exact ⟨h1, h2, h3, by simp [h1, h2, h3]⟩

set_option maxRecDepth 4000 in
/-- Witness for the record counts on the end-to-end sample: one
competency group with three questions plus one checklist yields counts
1, 3, 1 and `total_vectors = 5`. -/
theorem preprocess_record_counts_witness :
    preprocess sampleRaw = Except.ok sampleBundle ∧
    sampleBundle.competencies.length = 1 ∧
    sampleBundle.mcqs.length = 3 ∧
    sampleBundle.checklists.length = 1 ∧
    sampleBundle.total_vectors = 5 := by
  have hok : preprocess sampleRaw = Except.ok sampleBundle := by rfl
  have hc := preprocess_record_counts sampleRaw sampleBundle hok
  refine ⟨hok, ?_, ?_, ?_, ?_⟩
  · rw [hc.1]; rfl
  · rw [hc.2.1]; rfl
  · rw [hc.2.2.1]; rfl
  · rw [hc.2.2.2]; rfl

/-! ## Scanner characterization lemmas -/

theorem parse_quoted_scan_no_quote :
    ∀ {l : List Char}, squote ∉ l → parse_quoted_scan l none = [] := by
  intro l
  induction l with
  | nil => intro _; rfl
  | cons c rest ih =>
    intro h
    have hc : ¬ c = squote := fun hc => h (by simp [hc])
    simp only [parse_quoted_scan, if_neg hc]
    exact ih (fun hm => h (by simp [hm]))

theorem parse_quoted_scan_skip :
    ∀ {pre : List Char} (rest : List Char), squote ∉ pre →
      parse_quoted_scan (pre ++ rest) none = parse_quoted_scan rest none := by
  intro pre
  induction pre with
  | nil => intro rest _; rfl
  | cons c pre ih =>
    intro rest h
    have hc : ¬ c = squote := fun hc => h (by simp [hc])
    simp only [List.cons_append, parse_quoted_scan, if_neg hc]
    exact ih rest (fun hm => h (by simp [hm]))

theorem parse_quoted_scan_closed :
    ∀ {mid : List Char} (post : List Char) (acc : List Char), squote ∉ mid →
      parse_quoted_scan (mid ++ squote :: post) (some acc) =
        (acc ++ mid) :: parse_quoted_scan post none := by
  intro mid
  induction mid with
  | nil =>
    intro post acc _
    simp [parse_quoted_scan]
  | cons c mid ih =>
    intro post acc h
    have hc : ¬ c = squote := fun hc => h (by simp [hc])
    simp only [List.cons_append, parse_quoted_scan, if_neg hc, List.append_eq]
    rw [ih post (acc ++ [c]) (fun hm => h (by simp [hm]))]
    simp

theorem clean_html_scan_no_tag :
    ∀ {l : List Char}, '<' ∉ l → clean_html_scan l none = l := by
  intro l
  induction l with
  | nil => intro _; rfl
  | cons c rest ih =>
    intro h
    have hc : ¬ c = '<' := fun hc => h (by simp [hc])
    simp only [clean_html_scan, if_neg hc]
    rw [ih (fun hm => h (by simp [hm]))]

theorem clean_html_scan_skip :
    ∀ {pre : List Char} (rest : List Char), '<' ∉ pre →
      clean_html_scan (pre ++ rest) none = pre ++ clean_html_scan rest none := by
  intro pre
  induction pre with
  | nil => intro rest _; rfl
  | cons c pre ih =>
    intro rest h
    have hc : ¬ c = '<' := fun hc => h (by simp [hc])
    simp only [List.cons_append, clean_html_scan, if_neg hc, List.append_eq]
    rw [ih rest (fun hm => h (by simp [hm]))]

theorem clean_html_scan_closed :
    ∀ {mid : List Char} (post : List Char) (acc : List Char), '>' ∉ mid →
      acc ++ mid ≠ [] →
      clean_html_scan (mid ++ '>' :: post) (some acc) =
        clean_html_scan post none := by
  intro mid
  induction mid with
  | nil =>
    intro post acc _ hne
    have hacc : ¬ acc = [] := by simpa using hne
    simp [clean_html_scan, hacc]
  | cons c mid ih =>
    intro post acc h _
    have hc : ¬ c = '>' := fun hc => h (by simp [hc])
    simp only [List.cons_append, clean_html_scan, if_neg hc]
    exact ih post (acc ++ [c]) (fun hm => h (by simp [hm])) (by simp)

/-- C8: quoted-list extraction returns all substrings enclosed in single
quotes, preserving order, with no escaping: the concrete input parses to
`["a", "b", "c"]`, a quote-free string parses to the empty sequence, and
each closed quote pair emits exactly its enclosed content before scanning
continues after it. -/
theorem parse_quoted_list_extraction :
    parse_quoted_list "'a', 'b', 'c'" = ["a", "b", "c"] ∧
    (∀ s : String, squote ∉ s.data → parse_quoted_list s = []) ∧
    (∀ pre mid post : List Char, squote ∉ pre → squote ∉ mid →
      parse_quoted_scan (pre ++ squote :: (mid ++ squote :: post)) none =
        mid :: parse_quoted_scan post none) := by
  refine ⟨by decide, ?_, ?_⟩
  · intro s h
    unfold parse_quoted_list
    rw [parse_quoted_scan_no_quote h]
    rfl
  · intro pre mid post hpre hmid
    rw [parse_quoted_scan_skip (squote :: (mid ++ squote :: post)) hpre]
    have hopen : parse_quoted_scan (squote :: (mid ++ squote :: post)) none =
        parse_quoted_scan (mid ++ squote :: post) (some []) := by
      simp [parse_quoted_scan]
    rw [hopen, parse_quoted_scan_closed post [] hmid]
    simp

/-- Witness for the quoted-list extraction at concrete inputs: the
empty-list string has no quoted item, and one closed pair inside
unquoted text is extracted exactly. -/
theorem parse_quoted_list_extraction_witness :
    (squote ∉ ("[]" : String).data ∧ parse_quoted_list "[]" = []) ∧
    (squote ∉ ['x', ' '] ∧ squote ∉ ['a', 'b'] ∧
      parse_quoted_scan (['x', ' '] ++ squote :: (['a', 'b'] ++ squote :: ['y']))
        none = ['a', 'b'] :: parse_quoted_scan ['y'] none) := by
  refine ⟨⟨by decide, parse_quoted_list_extraction.2.1 "[]" (by decide)⟩,
    ⟨by decide, by decide,
      parse_quoted_list_extraction.2.2 ['x', ' '] ['a', 'b'] ['y']
        (by decide) (by decide)⟩⟩

/-- C9: markup stripping removes every HTML-like tag span while
preserving the remaining text in order, with no entity-unescaping: the
concrete input yields `"balloon inflation"`, a `<`-free string (e.g. one
holding entities) is unchanged, and each maximal tag span is dropped
exactly, the prefix before it kept verbatim. -/
theorem clean_html_markup_stripping :
    clean_html "<b>balloon</b> inflation" = "balloon inflation" ∧
    (∀ s : String, '<' ∉ s.data → clean_html s = s) ∧
    (∀ pre mid post : List Char, '<' ∉ pre → mid ≠ [] → '>' ∉ mid →
      clean_html_scan (pre ++ '<' :: (mid ++ '>' :: post)) none =
        pre ++ clean_html_scan post none) := by
  refine ⟨by decide, ?_, ?_⟩
  · intro s h
    unfold clean_html
    rw [clean_html_scan_no_tag h]
  · intro pre mid post hpre hne hmid
    rw [clean_html_scan_skip ('<' :: (mid ++ '>' :: post)) hpre]
    have hopen : clean_html_scan ('<' :: (mid ++ '>' :: post)) none =
        clean_html_scan (mid ++ '>' :: post) (some []) := by
      simp [clean_html_scan]
    rw [hopen, clean_html_scan_closed post [] hmid (by simpa using hne)]

/-- Witness for markup stripping at concrete inputs: an entity string
without tags is unchanged, and one tag span between plain characters is
dropped exactly. -/
theorem clean_html_markup_stripping_witness :
    ('<' ∉ ("&amp;" : String).data ∧ clean_html "&amp;" = "&amp;") ∧
    ('<' ∉ ['x'] ∧ (['b'] : List Char) ≠ [] ∧ '>' ∉ ['b'] ∧
      clean_html_scan (['x'] ++ '<' :: (['b'] ++ '>' :: ['y'])) none =
        ['x'] ++ clean_html_scan ['y'] none) := by
  refine ⟨⟨by decide, clean_html_markup_stripping.2.1 "&amp;" (by decide)⟩,
    ⟨by decide, by decide, by decide,
      clean_html_markup_stripping.2.2 ['x'] ['b'] ['y']
        (by decide) (by decide) (by decide)⟩⟩

theorem toLower_ne_space {c : Char} (hc : ¬ c = ' ') : ¬ c.toLower = ' ' := by
  unfold Char.toLower
  by_cases h : c.toNat ≥ 65 ∧ c.toNat ≤ 90
  · rw [if_pos h]
    obtain ⟨h1, h2⟩ := h
    interval_cases h : c.toNat <;> decide
  · rw [if_neg h]
    exact hc

theorem map_lower_space (l : List Char) :
    (l.map Char.toLower).map (fun c => if c = ' ' then '_' else c) =
      l.map (fun c => if c = ' ' then '_' else c.toLower) := by
  induction l with
  | nil => rfl
  | cons c l ih =>
    simp only [List.map_cons, List.cons.injEq]
    refine ⟨?_, ih⟩
    by_cases hc : c = ' '
    · subst hc; decide
    · rw [if_neg (toLower_ne_space hc), if_neg hc]

/-- C5: the Loader derives the collection name deterministically as
`module_` + course id + `_` + the module name lower-cased with every space
replaced by an underscore; equal bundles give equal names. -/
theorem collection_name_formula (b : Bundle) :
    (load_module_documents b).2.2 =
      "module_" ++ pyStr b.module_info.course_id ++ "_" ++
        (⟨b.module_info.competency_name.data.map
          (fun c => if c = ' ' then '_' else c.toLower)⟩ : String) ∧
    (∀ b' : Bundle, b' = b →
      (load_module_documents b').2.2 = (load_module_documents b).2.2) := by
  constructor
  · exact congrArg
      (fun l => "module_" ++ pyStr b.module_info.course_id ++ "_" ++
        (⟨l⟩ : String))
      (map_lower_space b.module_info.competency_name.data)
  · intro b' h
    rw [h]

set_option maxRecDepth 4000 in
/-- Witness for the collection name on the sample bundle: the formula
instance and the stability instance, with the resulting concrete name. -/
theorem collection_name_formula_witness :
    (load_module_documents sampleBundle).2.2 =
      "module_" ++ pyStr sampleBundle.module_info.course_id ++ "_" ++
        (⟨sampleBundle.module_info.competency_name.data.map
          (fun c => if c = ' ' then '_' else c.toLower)⟩ : String) ∧
    (load_module_documents sampleBundle).2.2 =
      (load_module_documents sampleBundle).2.2 ∧
    (load_module_documents sampleBundle).2.2 =
      "module_341_urinary_catheterization" := by
  refine ⟨(collection_name_formula sampleBundle).1,
    (collection_name_formula sampleBundle).2 sampleBundle rfl, ?_⟩
  rfl

/-- C10: the Loader submits `str(record.id)` as the upsert key for every
record (so a numeric checklist question id is coerced to its decimal
string) and submits records in the order competencies, then questions,
then checklists; the Normalizer stores the checklist record id as the raw
`question_id` value. -/
theorem loader_ids_order_and_coercion (b : Bundle) :
    (load_module_documents b).2.1 =
      (b.competencies ++ b.mcqs ++ b.checklists).map (fun r => pyStr r.id) ∧
    (load_module_documents b).1 =
      (b.competencies ++ b.mcqs ++ b.checklists).map mkDoc ∧
    (∀ n : Int, pyStr (JVal.num n) = toString n) ∧
    (∀ mf cid mn g r, mkChecklistRecord mf cid mn g = Except.ok r →
      r.id = g.question.question_id) := by
  refine ⟨by simp [load_module_documents], by simp [load_module_documents],
    fun n => rfl, ?_⟩
  intro mf cid mn g r h
  unfold mkChecklistRecord at h
  cases hd : mf.module_domain with
  | none => rw [hd] at h; simp [getKey, Bind.bind, Except.bind] at h
  | some d =>
    rw [hd] at h
    simp only [getKey, Bind.bind, Except.bind, Except.ok.injEq] at h
    rw [← h]

/-- The sample `key_module_field` block. -/
def sampleMf : KeyModuleField :=
  { course_id := some (JVal.str "341")
    competency_name := some "Urinary Catheterization"
    module_domain := some "Nursing" }

/-- The record the checklist loop produces for `sampleChecklist`. -/
def sampleChecklistRecord : Record :=
  match mkChecklistRecord sampleMf (JVal.str "341") "Urinary Catheterization"
      sampleChecklist with
  | Except.ok r => r
  | Except.error _ => default

set_option maxRecDepth 4000 in
/-- Witness for the loader id handling on the sample bundle: the
submitted ids are the decimal-coerced record ids in kind order, ending in
`"77"` for the numeric checklist question id. -/
theorem loader_ids_order_and_coercion_witness :
    (load_module_documents sampleBundle).2.1 =
      (sampleBundle.competencies ++ sampleBundle.mcqs ++
        sampleBundle.checklists).map (fun r => pyStr r.id) ∧
    pyStr (JVal.num 77) = "77" ∧
    (mkChecklistRecord sampleMf (JVal.str "341") "Urinary Catheterization"
        sampleChecklist = Except.ok sampleChecklistRecord ∧
      sampleChecklistRecord.id = JVal.num 77) ∧
    (load_module_documents sampleBundle).2.1 =
      ["comp1", "q1", "q2", "q3", "77"] := by
  have hok : mkChecklistRecord sampleMf (JVal.str "341")
      "Urinary Catheterization" sampleChecklist =
      Except.ok sampleChecklistRecord := by rfl
  refine ⟨(loader_ids_order_and_coercion sampleBundle).1,
    (loader_ids_order_and_coercion sampleBundle).2.2.1 77,
    ⟨hok, (loader_ids_order_and_coercion sampleBundle).2.2.2
      sampleMf (JVal.str "341") "Urinary Catheterization"
      sampleChecklist sampleChecklistRecord hok⟩, ?_⟩
  rfl

instance : Inhabited CompGroup :=
  ⟨{ competency := ⟨JVal.str "", "", "", "", ""⟩
     question := ⟨"", "", "", "", ""⟩ }⟩

/-- A raw export whose first MCQ group has one parsed question id but
empty parallel lists. -/
def mismatchedRaw : RawModuleExport :=
  { key_module_field := some sampleMf
    question_type_mcq :=
      [{ competency := sampleComp
         question :=
           { question_ids := "'q1'"
             question_texts := ""
             correct_options_texts := ""
             question_id_competency_definition := ""
             options_texts := "" } }]
    question_type_checklist := none }

set_option maxRecDepth 4000 in
/-- C7: the Normalizer does not validate the parallel list lengths: on a
raw input whose parsed question id list is longer than the other lists,
it propagates an IndexError (the unhandled index-out-of-range fault)
rather than any KeyError (the spec's MalformedInputError). -/
theorem parallel_array_mismatch_unhandled_fault :
    (parse_quoted_list mismatchedRaw.question_type_mcq.headI.question.question_ids).length = 1 ∧
    (parse_quoted_list mismatchedRaw.question_type_mcq.headI.question.question_texts).length = 0 ∧
    preprocess mismatchedRaw = Except.error PyErr.indexError ∧
    (∀ k : String, preprocess mismatchedRaw ≠
      Except.error (PyErr.keyError k)) := by
  refine ⟨rfl, rfl, by rfl, ?_⟩
  intro k h
  rw [show preprocess mismatchedRaw = Except.error PyErr.indexError from rfl] at h
  simp at h

theorem mkCompetencyRecord_domain_missing {mf : KeyModuleField} {cid : JVal}
    {mn : String} (g : CompGroup) (h : mf.module_domain = none) :
    mkCompetencyRecord mf cid mn g =
      Except.error (PyErr.keyError "module_domain") := by
  unfold mkCompetencyRecord
  rw [h]
  simp [getKey, Bind.bind, Except.bind]

theorem mkChecklistRecord_domain_missing {mf : KeyModuleField} {cid : JVal}
    {mn : String} (g : ChecklistGroup) (h : mf.module_domain = none) :
    mkChecklistRecord mf cid mn g =
      Except.error (PyErr.keyError "module_domain") := by
  unfold mkChecklistRecord
  rw [h]
  simp [getKey, Bind.bind, Except.bind]

/-- A raw export missing only `module_domain`, with no competency and no
checklist groups. -/
def domainlessRaw : RawModuleExport :=
  { key_module_field := some
      { course_id := some (JVal.str "341")
        competency_name := some "M"
        module_domain := none }
    question_type_mcq := []
    question_type_checklist := none }

/-- C4 counterexample: `module_domain` is absent from the
`key_module_field` block, yet the Normalizer does not fail — it produces
(and therefore writes) an empty bundle, because `module_domain` is only
read inside the per-record rendering loops and no record is rendered. -/
theorem missing_domain_not_fatal :
    domainlessRaw.key_module_field.map (fun mf => mf.module_domain) =
      some none ∧
    preprocess domainlessRaw = Except.ok
      { module_info := ⟨JVal.str "341", "M", none⟩
        competencies := [], mcqs := [], checklists := []
        total_vectors := 0 } := ⟨rfl, rfl⟩

/-- C4 (amended): a missing `key_module_field` block, `course_id`, or
`competency_name` always aborts the Normalizer with the corresponding
KeyError before any output is written; a missing `module_domain` aborts
only when at least one competency or checklist group is rendered, and
with no groups at all the Normalizer succeeds with an empty bundle. -/
theorem preprocess_missing_key_policy (raw : RawModuleExport) :
    (raw.key_module_field = none →
      preprocess raw = Except.error (PyErr.keyError "key_module_field")) ∧
    (∀ mf, raw.key_module_field = some mf → mf.course_id = none →
      preprocess raw = Except.error (PyErr.keyError "course_id")) ∧
    (∀ mf cid, raw.key_module_field = some mf → mf.course_id = some cid →
      mf.competency_name = none →
      preprocess raw = Except.error (PyErr.keyError "competency_name")) ∧
    (∀ mf cid mn, raw.key_module_field = some mf → mf.course_id = some cid →
      mf.competency_name = some mn → mf.module_domain = none →
      raw.question_type_mcq ≠ [] →
      preprocess raw = Except.error (PyErr.keyError "module_domain")) ∧
    (∀ mf cid mn, raw.key_module_field = some mf → mf.course_id = some cid →
      mf.competency_name = some mn → mf.module_domain = none →
      raw.question_type_mcq = [] → raw.question_type_checklist.getD [] ≠ [] →
      preprocess raw = Except.error (PyErr.keyError "module_domain")) ∧
    (∀ mf cid mn, raw.key_module_field = some mf → mf.course_id = some cid →
      mf.competency_name = some mn →
      raw.question_type_mcq = [] → raw.question_type_checklist.getD [] = [] →
      preprocess raw = Except.ok
        { module_info := ⟨cid, mn, mf.module_domain⟩
          competencies := [], mcqs := [], checklists := []
          total_vectors := 0 }) := by
  refine ⟨?_, ?_, ?_, ?_, ?_, ?_⟩
  · intro h
    unfold preprocess
    rw [h]
    rfl
  · intro mf hmf hcid
    unfold preprocess
    rw [hmf]
    simp only [getKey, Bind.bind, Except.bind]
    rw [hcid]
  · intro mf cid hmf hcid hmn
    unfold preprocess
    rw [hmf]
    simp only [getKey, Bind.bind, Except.bind]
    rw [hcid]
    simp only [Except.bind]
    rw [hmn]
  · intro mf cid mn hmf hcid hmn hdom hne
    unfold preprocess
    rw [hmf]
    simp only [getKey, Bind.bind, Except.bind]
    rw [hcid]
    simp only [Except.bind]
    rw [hmn]
    simp only [Except.bind]
    cases hq : raw.question_type_mcq with
    | nil => exact absurd hq hne
    | cons g gs =>
      simp only [mapE, mkCompetencyRecord_domain_missing g hdom]
  · intro mf cid mn hmf hcid hmn hdom hq hchk
    unfold preprocess
    rw [hmf]
    simp only [getKey, Bind.bind, Except.bind]
    rw [hcid]
    simp only [Except.bind]
    rw [hmn]
    simp only [Except.bind]
    rw [hq]
    simp only [mapE, Except.bind]
    cases hc : raw.question_type_checklist.getD [] with
    | nil => exact absurd hc hchk
    | cons g gs =>
      simp only [mapE, mkChecklistRecord_domain_missing g hdom]
  · intro mf cid mn hmf hcid hmn hq hchk
    unfold preprocess
    rw [hmf]
    simp only [getKey, Bind.bind, Except.bind]
    rw [hcid]
    simp only [Except.bind]
    rw [hmn]
    simp only [Except.bind]
    rw [hq, hchk]
    rfl

/-- Witness exercising every clause of the missing-key policy at concrete
inputs, one per missing field and group configuration. -/
theorem preprocess_missing_key_policy_witness :
    preprocess ⟨none, [], none⟩ =
      Except.error (PyErr.keyError "key_module_field") ∧
    preprocess ⟨some ⟨none, some "M", some "D"⟩, [], none⟩ =
      Except.error (PyErr.keyError "course_id") ∧
    preprocess ⟨some ⟨some (JVal.str "1"), none, some "D"⟩, [], none⟩ =
      Except.error (PyErr.keyError "competency_name") ∧
    preprocess ⟨some ⟨some (JVal.str "1"), some "M", none⟩, [sampleGroup], none⟩ =
      Except.error (PyErr.keyError "module_domain") ∧
    preprocess ⟨some ⟨some (JVal.str "1"), some "M", none⟩, [],
        some [sampleChecklist]⟩ =
      Except.error (PyErr.keyError "module_domain") ∧
    preprocess domainlessRaw = Except.ok
      { module_info := ⟨JVal.str "341", "M", none⟩
        competencies := [], mcqs := [], checklists := []
        total_vectors := 0 } := by
  refine ⟨(preprocess_missing_key_policy ⟨none, [], none⟩).1 rfl,
    (preprocess_missing_key_policy _).2.1 ⟨none, some "M", some "D"⟩ rfl rfl,
    (preprocess_missing_key_policy _).2.2.1 ⟨some (JVal.str "1"), none, some "D"⟩
      (JVal.str "1") rfl rfl rfl,
    (preprocess_missing_key_policy _).2.2.2.1
      ⟨some (JVal.str "1"), some "M", none⟩ (JVal.str "1") "M"
      rfl rfl rfl rfl (by simp),
    (preprocess_missing_key_policy _).2.2.2.2.1
      ⟨some (JVal.str "1"), some "M", none⟩ (JVal.str "1") "M"
      rfl rfl rfl rfl rfl (by simp),
    (preprocess_missing_key_policy domainlessRaw).2.2.2.2.2
      ⟨some (JVal.str "341"), some "M", none⟩ (JVal.str "341") "M"
      rfl rfl rfl rfl rfl⟩

/-- Modelled from the spec's words for comparison with the code's
fallback: the template C6 describes, the question text plus the bare step
listing with the Procedural Checklist / Competency framing dropped. -/
def claimed_fallback_text (q : ChecklistQuestion)
    (steps : List ChecklistStep) : String :=
  q.question_text ++ "\n" ++ checklist_steps_text steps

/-- C6 (amended): for a checklist whose full rendered template exceeds
the 2048-character budget, the stored embedding text is the truncation of
the compressed fallback template, which keeps the
`Procedural Checklist: {question_text}` header, adds a `Steps:` label,
and lists the steps - dropping only the
`Competency: Procedural Skills (Skill)` line and the
`Correct sequence (N steps):` header. -/
theorem checklist_fallback (q : ChecklistQuestion) (steps : List ChecklistStep)
    (h : MAX_CHARS < (checklist_full_text q steps).length) :
    checklist_embed_text q steps =
      (truncate_if_needed (checklist_short_text q steps)).1 := by
  show (truncate_if_needed
      (if (checklist_full_text q steps).length > MAX_CHARS
        then checklist_short_text q steps else checklist_full_text q steps)).1 = _
  rw [if_pos h]

/-- A 2500-character step text. -/
def longStepText : String := ⟨List.replicate 2500 's'⟩

/-- A checklist whose single step makes the full template exceed the
budget. -/
def longChecklist : ChecklistGroup :=
  { question := ⟨JVal.num 9, "Long procedure"⟩
    option := [⟨1, longStepText⟩] }

/-- Witness for the checklist fallback: the long sample checklist's full
template exceeds the budget and its stored embedding text equals the
truncated fallback rendering. -/
theorem checklist_fallback_witness :
    MAX_CHARS <
      (checklist_full_text longChecklist.question longChecklist.option).length ∧
    checklist_embed_text longChecklist.question longChecklist.option =
      (truncate_if_needed
        (checklist_short_text longChecklist.question longChecklist.option)).1 := by
  have h2500 : longStepText.length = 2500 := by
    show (String.mk (List.replicate 2500 's')).length = 2500
    rw [String.length_mk, List.length_replicate]
  have hlen : MAX_CHARS <
      (checklist_full_text longChecklist.question longChecklist.option).length := by
    show MAX_CHARS <
      (checklist_full_text ⟨JVal.num 9, "Long procedure"⟩ [⟨1, longStepText⟩]).length
    unfold checklist_full_text
    rw [show checklist_steps_text [⟨1, longStepText⟩] = "1. " ++ longStepText from rfl]
    simp only [String.length_append, h2500]
    decide
  exact ⟨hlen, checklist_fallback longChecklist.question longChecklist.option hlen⟩

set_option maxRecDepth 4000 in
/-- Witness for the parallel-array fault: the mismatched sample input
faults with IndexError and in particular not with a KeyError. -/
theorem parallel_array_mismatch_unhandled_fault_witness :
    preprocess mismatchedRaw = Except.error PyErr.indexError ∧
    ¬ preprocess mismatchedRaw =
      Except.error (PyErr.keyError "question_texts") :=
  ⟨parallel_array_mismatch_unhandled_fault.2.2.1,
   parallel_array_mismatch_unhandled_fault.2.2.2 "question_texts"⟩

/-- A 1900-character step text: long enough that the full checklist
template exceeds the budget, short enough that the fallback fits in it. -/
def midStepText : String := ⟨List.replicate 1900 's'⟩

/-- A checklist whose full template exceeds the budget while its fallback
rendering does not, so the stored text is the fallback verbatim. -/
def midChecklist : ChecklistGroup :=
  { question := ⟨JVal.num 8, "Insert widget"⟩
    option := [⟨1, midStepText⟩] }

/-- C6 counterexample: on a concrete over-budget checklist the stored
embedding text is the code's fallback template verbatim, which still
begins with the 22-character `Procedural Checklist: ` header and is not
the question text plus bare step listing the claim describes. -/
theorem checklist_fallback_retains_header :
    MAX_CHARS <
      (checklist_full_text midChecklist.question midChecklist.option).length ∧
    checklist_embed_text midChecklist.question midChecklist.option =
      checklist_short_text midChecklist.question midChecklist.option ∧
    (checklist_short_text midChecklist.question midChecklist.option).data.take 22 =
      "Procedural Checklist: ".data ∧
    checklist_embed_text midChecklist.question midChecklist.option ≠
      claimed_fallback_text midChecklist.question midChecklist.option := by
  have hT : midStepText.length = 1900 := by
    show (String.mk (List.replicate 1900 's')).length = 1900
    rw [String.length_mk, List.length_replicate]
  have hst : checklist_steps_text midChecklist.option = "1. " ++ midStepText := rfl
  have hfull : MAX_CHARS <
      (checklist_full_text midChecklist.question midChecklist.option).length := by
    show MAX_CHARS <
      (checklist_full_text ⟨JVal.num 8, "Insert widget"⟩ [⟨1, midStepText⟩]).length
    unfold checklist_full_text
    rw [show checklist_steps_text [⟨1, midStepText⟩] = "1. " ++ midStepText from rfl]
    simp only [String.length_append, hT]
    decide
  have hshort : (checklist_short_text midChecklist.question
      midChecklist.option).length ≤ MAX_CHARS := by
    show (checklist_short_text ⟨JVal.num 8, "Insert widget"⟩ [⟨1, midStepText⟩]).length ≤ MAX_CHARS
    unfold checklist_short_text
    rw [show checklist_steps_text [⟨1, midStepText⟩] = "1. " ++ midStepText from rfl]
    simp only [String.length_append, hT]
    decide
  have hemb : checklist_embed_text midChecklist.question midChecklist.option =
      checklist_short_text midChecklist.question midChecklist.option := by
    show (truncate_if_needed
        (if (checklist_full_text midChecklist.question midChecklist.option).length > MAX_CHARS
          then checklist_short_text midChecklist.question midChecklist.option
          else checklist_full_text midChecklist.question midChecklist.option)).1 = _
    rw [if_pos hfull]
    simp [truncate_if_needed, hshort]
  refine ⟨hfull, hemb, by decide, ?_⟩
  intro h
  rw [hemb] at h
  exact absurd (congrArg (fun s => s.data.take 1) h) (by decide)
